import Mathlib

/-!
Verification development for the `tag` utility: a shallow embedding of the
query-language core (src/parsers.rs), the tagline extraction front end
(src/search.rs), and the file-index builder (src/search.rs), together with
theorems settling the specification's claims about them.
-/

/-- Op is an operation that can be used in a query (src/parsers.rs, `enum Op`). -/
inductive Op where
  | And : Op
  | Or : Op
  deriving DecidableEq, Repr

/-- Expr represents an AST for a search query (src/parsers.rs, `enum Expr`):
a resolved boolean leaf, a unary negation, or a binary operation. -/
inductive Expr where
  | Bool : Bool → Expr
  | UnaryNot : Expr → Expr
  | Operation : Expr → Op → Expr → Expr
  deriving DecidableEq, Repr

/-- evaluate_ast evaluates an AST created by construct_query_ast and returns
the result (src/parsers.rs, `evaluate_ast`): both operands are computed before
the operator is applied, mirroring the source's bitwise `&` / `|`. -/
def evaluate_ast : Expr → Bool
  | Expr.Bool value => value
  | Expr.UnaryNot e => !evaluate_ast e
  | Expr.Operation lhs op rhs =>
    let left := evaluate_ast lhs
    let right := evaluate_ast rhs
    match op with
    | Op.Or => left || right
    | Op.And => left && right

/-- Whitespace as: space, tab, carriage return, line feed (the characters
Lean's `Char.isWhitespace` recognizes, matching the spec's `\s`). -/
def isWs (c : Char) : Bool :=
  c = ' ' || c = '\t' || c = '\r' || c = '\n'

/-- Drop leading whitespace from a character list. -/
def skipWs : List Char → List Char
  | [] => []
  | c :: cs => if isWs c then skipWs cs else c :: cs

/-- Drop leading and trailing whitespace: the char-level model of Rust's
`str::trim` (Lean's own `String.trim` is not kernel-reducible, so the same
function is spelled out on the character list). -/
def trimChars (cs : List Char) : List Char :=
  (skipWs ((skipWs cs).reverse)).reverse

/-- Rust's `str::trim` on a Lean `String`. -/
def trimStr (s : String) : String :=
  String.mk (trimChars s.data)

/-- Modelled from the spec: the query grammar's parse output (the grammar file
`query.pest` is not under src/, only its tokens are described in the spec).
A pest pair stream for one expression is a flat sequence of primaries — tag
references (`#` + identifier, the pair text keeping the `#`) and parenthesized
sub-expressions carrying their own inner pair stream — interleaved with the
two binary operator tokens, each primary possibly preceded by negation
tokens. -/
inductive QToken where
  | tag : String → QToken
  | expr : List QToken → QToken
  | and : QToken
  | or : QToken
  | unaryNot : QToken

mutual

/-- Size of one token, counting the tokens of nested parse trees. -/
def tsize : QToken → Nat
  | QToken.tag _ => 1
  | QToken.expr inner => 1 + tsizeList inner
  | QToken.and => 1
  | QToken.or => 1
  | QToken.unaryNot => 1

/-- Total size of a token list. -/
def tsizeList : List QToken → Nat
  | [] => 0
  | t :: ts => tsize t + tsizeList ts

end

mutual

/-- Pest's Pratt algorithm (`PrattParser::parse` with the `map_primary`,
`map_infix` and prefix maps of `construct_query_ast`, src/parsers.rs):
parse one expression at a minimum binding power. Binding powers encode
`PRATT_PARSER`: `&` and `|` share one left-associative level (power 10,
right operand parsed at 11), `!` sits on the next, tighter level (power 20).
`fuel` only forces termination; it is ample at every use site. -/
def parseExpr (fuel : Nat) (toks : List QToken) (tags : List String) (minPrec : Nat) :
    Option (Expr × List QToken) :=
  match fuel with
  | 0 => none
  | Nat.succ f =>
    match parseAtom f toks tags with
    | none => none
    | some (lhs, rest) => parseOps f lhs rest tags minPrec

/-- The operator loop of the Pratt algorithm: fold further binary operators of
sufficient binding power onto `lhs`, building `Expr.Operation` nodes exactly as
the `map_infix` closure of `construct_query_ast` does (src/parsers.rs). -/
def parseOps (fuel : Nat) (lhs : Expr) (toks : List QToken) (tags : List String) (minPrec : Nat) :
    Option (Expr × List QToken) :=
  match fuel with
  | 0 => none
  | Nat.succ f =>
    match toks with
    | QToken.and :: rest =>
      if minPrec ≤ 10 then
        match parseExpr f rest tags 11 with
        | some (rhs, rest2) => parseOps f (Expr.Operation lhs Op.And rhs) rest2 tags minPrec
        | none => none
      else
        some (lhs, QToken.and :: rest)
    | QToken.or :: rest =>
      if minPrec ≤ 10 then
        match parseExpr f rest tags 11 with
        | some (rhs, rest2) => parseOps f (Expr.Operation lhs Op.Or rhs) rest2 tags minPrec
        | none => none
      else
        some (lhs, QToken.or :: rest)
    | other => some (lhs, other)

/-- The primary step of the Pratt algorithm, mirroring the `map_primary` and
prefix closures of `construct_query_ast` (src/parsers.rs): a tag reference
resolves to `Expr.Bool (tags.contains text.trim)`, a parenthesized
sub-expression recurses into its inner pair stream with the same tag list,
and a negation token wraps the operand parsed at the tighter power in
`Expr.UnaryNot`. -/
def parseAtom (fuel : Nat) (toks : List QToken) (tags : List String) :
    Option (Expr × List QToken) :=
  match fuel with
  | 0 => none
  | Nat.succ f =>
    match toks with
    | QToken.unaryNot :: rest =>
      match parseExpr f rest tags 20 with
      | some (rhs, rest2) => some (Expr.UnaryNot rhs, rest2)
      | none => none
    | QToken.tag s :: rest => some (Expr.Bool (tags.contains (trimStr s)), rest)
    | QToken.expr inner :: rest =>
      match parseExpr f inner tags 0 with
      | some (e, _) => some (e, rest)
      | none => none
    | _ => none

end

/-- construct_query_ast creates an AST from a stream of symbols lexed by the
query grammar and a list of tags (src/parsers.rs, `construct_query_ast`):
run the Pratt reduction over the stream. The fuel bound is ample for the
stream's size; `none` models the function's unreachable panic paths, which
well-formed grammar output never hits. -/
def construct_query_ast (toks : List QToken) (tags : List String) : Option Expr :=
  match parseExpr (3 * tsizeList toks + 3) toks tags 0 with
  | some (e, _) => some e
  | none => none

/-- The per-file pipeline of src/main.rs: resolve the parsed query against one
file's tag list and evaluate the resulting AST. -/
def resolveEval (toks : List QToken) (tags : List String) : Option Bool :=
  (construct_query_ast toks tags).map evaluate_ast

/-- The repository's own expected AST for `#a & #b | (!#c & #d)` against tags
`["#c", "#d"]` (src/parsers.rs, `test_construct_query_ast`), reproduced by the
embedding: the mixed chain groups left-to-right and `!` binds to one primary. -/
theorem construct_matches_repo_test :
    construct_query_ast
      [QToken.tag "#a", QToken.and, QToken.tag "#b", QToken.or,
        QToken.expr [QToken.unaryNot, QToken.tag "#c", QToken.and, QToken.tag "#d"]]
      ["#c", "#d"]
    = some (Expr.Operation
        (Expr.Operation (Expr.Bool false) Op.And (Expr.Bool false))
        Op.Or
        (Expr.Operation (Expr.UnaryNot (Expr.Bool true)) Op.And (Expr.Bool true))) := by
  decide

/-- Modelled from the spec: tokenization of the query string `#a & #b | #c`. -/
def qAndOr : List QToken :=
  [QToken.tag "#a", QToken.and, QToken.tag "#b", QToken.or, QToken.tag "#c"]

/-- Modelled from the spec: tokenization of the query string `(#a & #b) | #c`. -/
def qAndOrGrouped : List QToken :=
  [QToken.expr [QToken.tag "#a", QToken.and, QToken.tag "#b"], QToken.or, QToken.tag "#c"]

/-- Modelled from the spec: tokenization of the query string `#a | #b & #c`. -/
def qOrAnd : List QToken :=
  [QToken.tag "#a", QToken.or, QToken.tag "#b", QToken.and, QToken.tag "#c"]

/-- Modelled from the spec: tokenization of the query string `(#a | #b) & #c`. -/
def qOrAndGrouped : List QToken :=
  [QToken.expr [QToken.tag "#a", QToken.or, QToken.tag "#b"], QToken.and, QToken.tag "#c"]

/-- Modelled from the spec: tokenization of the query string `!#a & #b`. -/
def qNotAnd : List QToken :=
  [QToken.unaryNot, QToken.tag "#a", QToken.and, QToken.tag "#b"]

/-- Modelled from the spec: tokenization of the query string `(!#a) & #b`. -/
def qNotAndGrouped : List QToken :=
  [QToken.expr [QToken.unaryNot, QToken.tag "#a"], QToken.and, QToken.tag "#b"]

/-- Modelled from the spec: tokenization of the query string `!(#a & #b)`. -/
def qNotAll : List QToken :=
  [QToken.unaryNot, QToken.expr [QToken.tag "#a", QToken.and, QToken.tag "#b"]]

/-- Modelled from the spec: tokenization of the query string `!#a`. -/
def qNotA : List QToken :=
  [QToken.unaryNot, QToken.tag "#a"]

/-- C1: `&` and `|` sit at the same precedence level and chained mixed
operators group strictly left-to-right: against every tag set, resolving and
evaluating `#a & #b | #c` agrees with `(#a & #b) | #c`, and `#a | #b & #c`
agrees with `(#a | #b) & #c`; neither operator out-ranks the other. -/
theorem query_mixed_chain_groups_left_to_right (tags : List String) :
    resolveEval qAndOr tags = resolveEval qAndOrGrouped tags
    ∧ resolveEval qOrAnd tags = resolveEval qOrAndGrouped tags :=
  ⟨rfl, rfl⟩

/-- C2: evaluate_ast is a pure total structural recursion with exactly the
four defining equations — a leaf gives its value, negation negates, and a
binary node combines the values of both operands with `&&` or `||`;
it returns a plain `Bool`, so there is no error path. -/
theorem evaluate_ast_equations :
    (∀ v : Bool, evaluate_ast (Expr.Bool v) = v)
    ∧ (∀ e : Expr, evaluate_ast (Expr.UnaryNot e) = !evaluate_ast e)
    ∧ (∀ l r : Expr,
        evaluate_ast (Expr.Operation l Op.And r) = (evaluate_ast l && evaluate_ast r))
    ∧ (∀ l r : Expr,
        evaluate_ast (Expr.Operation l Op.Or r) = (evaluate_ast l || evaluate_ast r)) :=
  ⟨fun _ => rfl, fun _ => rfl, fun _ _ => rfl, fun _ _ => rfl⟩

/-- C3: the AST builder resolves a tag-reference primary to
`Bool (tags.contains text.trim)` — membership by exact string equality, the
only normalization being the trim — and resolves a parenthesized primary by
recursing into its inner pair stream with the same tag list (and base
binding power). -/
theorem builder_resolves_primaries :
    (∀ (s : String) (tags : List String),
      construct_query_ast [QToken.tag s] tags = some (Expr.Bool (tags.contains (trimStr s))))
    ∧ (∀ (f : Nat) (s : String) (rest : List QToken) (tags : List String),
      parseAtom (f + 1) (QToken.tag s :: rest) tags
        = some (Expr.Bool (tags.contains (trimStr s)), rest))
    ∧ (∀ (f : Nat) (inner rest : List QToken) (tags : List String),
      parseAtom (f + 1) (QToken.expr inner :: rest) tags
        = (parseExpr f inner tags 0).map (fun p => (p.1, rest))) := by
  refine ⟨fun s tags => rfl, fun f s rest tags => rfl, fun f inner rest tags => ?_⟩
  cases h : parseExpr f inner tags 0 with
  | none => simp [parseAtom, h]
  | some p => cases p with
    | mk e l => simp [parseAtom, h]

/-- C4: the prefix `!` binds tighter than any binary operator — against every
tag set, `!#a & #b` resolves and evaluates exactly as `(!#a) & #b`, while on
the empty tag set it gives `false` where `!(#a & #b)` gives `true`, so the
negation does not span the conjunction. -/
theorem unary_not_binds_tighter (tags : List String) :
    resolveEval qNotAnd tags = resolveEval qNotAndGrouped tags
    ∧ resolveEval qNotAnd [] = some false
    ∧ resolveEval qNotAll [] = some true :=
  ⟨rfl, by decide, by decide⟩

/-- C6: resolution is deterministic in the parse tree and the tag set — in
the pure embedding the builder is a function, so resolving the same stream
against the same tag list twice yields structurally equal results. -/
theorem construct_query_ast_deterministic (toks : List QToken) (tags : List String) :
    construct_query_ast toks tags = construct_query_ast toks tags :=
  rfl

/-- C7: negation law — against every tag set `S`, resolving and evaluating the
parsed query `!#a` returns the boolean negation of membership of the tag
`#a` in `S`. -/
theorem negation_law (S : List String) :
    resolveEval qNotA S = some (!S.contains "#a") :=
  rfl

/-- C10: evaluation of a binary operation is commutative in its operands —
swapping the two sides of an `Operation` node never changes
evaluate_ast's result, for both operators. -/
theorem evaluate_ast_operation_comm (e1 e2 : Expr) (op : Op) :
    evaluate_ast (Expr.Operation e1 op e2) = evaluate_ast (Expr.Operation e2 op e1) := by
  cases op <;> simp [evaluate_ast, Bool.and_comm, Bool.or_comm]

/-- Identifier alphabet of a tag token: ASCII letters, digits, hyphen
(the spec's `[A-Za-z0-9-]`). -/
def isIdentChar (c : Char) : Bool :=
  c.isAlpha || c.isDigit || c = '-'

/-- Split off the longest leading run of identifier characters. -/
def identSpan : List Char → List Char × List Char
  | [] => ([], [])
  | c :: cs =>
    if isIdentChar c then
      let p := identSpan cs
      (c :: p.1, p.2)
    else
      ([], c :: cs)

/-- Modelled from the spec: the tag-sequence part of the tagline grammar
(the grammar file `tagline.pest` is not under src/; the spec fixes the shape
`\\s*(#[A-Za-z0-9-]+\\s*)*\\]\\s*$` for the text after the opening bracket).
Consume optional whitespace, then either the closing bracket — demanding only
trailing whitespace after it — or a `#` followed by a nonempty identifier,
collected in source order. `fuel` only forces termination; one unit is spent
per tag, so any fuel above the tag count gives the grammar's answer. -/
def parseTagSeqF : Nat → List Char → Option (List (List Char))
  | 0, _ => none
  | Nat.succ f, cs =>
    match skipWs cs with
    | ']' :: rest => if skipWs rest = [] then some [] else none
    | '#' :: rest =>
      match identSpan rest with
      | ([], _) => none
      | (c :: ident, rest2) =>
        match parseTagSeqF f rest2 with
        | some tags => some (('#' :: c :: ident) :: tags)
        | none => none
    | _ => none

/-- The tag sequence of a bracketed segment, with fuel ample for its length
(every recursive step consumes at least one character of `cs`). -/
def parseTagSeq (cs : List Char) : Option (List (List Char)) :=
  parseTagSeqF (cs.length + 1) cs

/-- Modelled from the spec: the tagline grammar (`tagline.pest` is not under
src/; the spec fixes `^tags:\s*\[\s*(#[A-Za-z0-9-]+\s*)*\]\s*$`): the literal
keyword `tags:`, optional whitespace, a bracketed tag sequence. On success the
ordered list of tag tokens, in source order and without deduplication. -/
def parseTagline (cs : List Char) : Option (List (List Char)) :=
  match cs with
  | 't' :: 'a' :: 'g' :: 's' :: ':' :: rest =>
    match skipWs rest with
    | '[' :: inner => parseTagSeq inner
    | _ => none
  | _ => none

/-- The pure core of get_tags_from_file (src/search.rs): trim the first line,
run it through the tagline grammar, and collect the tag tokens. -/
def tagsFromLine (line : List Char) : Option (List (List Char)) :=
  parseTagline (trimChars line)

/-- Join tag tokens with single spaces, as in the line `tags: [#t1 #t2 ...]`. -/
def sepSpace : List (List Char) → List Char
  | [] => []
  | [t] => t
  | t :: ts => t ++ ' ' :: sepSpace ts

/-- Format a tag list as the tagline `tags: [#t1 #t2 ...]`. -/
def formatTagline (L : List (List Char)) : List Char :=
  't' :: 'a' :: 'g' :: 's' :: ':' :: ' ' :: '[' :: (sepSpace L ++ [']'])

/-- A valid tag token: `#` followed by one or more identifier characters. -/
def validTag : List Char → Bool
  | [] => false
  | c :: rest => c == '#' && !rest.isEmpty && rest.all isIdentChar

/-- skipWs is the identity on a list whose head is not whitespace. -/
theorem skipWs_cons_of_neg (c : Char) (h : isWs c = false) (z : List Char) :
    skipWs (c :: z) = c :: z := by
  simp [skipWs, h]

/-- identSpan splits an identifier run off at the first non-identifier
character. -/
theorem identSpan_append (xs : List Char) (d : Char) (ys : List Char)
    (hxs : xs.all isIdentChar = true) (hd : isIdentChar d = false) :
    identSpan (xs ++ d :: ys) = (xs, d :: ys) := by
  induction xs with
  | nil => simp [identSpan, hd]
  | cons c cs ih =>
    simp only [List.all_cons, Bool.and_eq_true] at hxs
    simp [identSpan, hxs.1, ih hxs.2]

/-- A valid tag token is a `#` followed by a nonempty identifier run. -/
theorem validTag_shape (t : List Char) (h : validTag t = true) :
    ∃ u us, t = '#' :: u :: us ∧ (u :: us).all isIdentChar = true := by
  cases t with
  | nil => simp [validTag] at h
  | cons c rest =>
    cases rest with
    | nil => simp [validTag] at h
    | cons u us =>
      simp only [validTag, Bool.and_eq_true, beq_iff_eq] at h
      exact ⟨u, us, by rw [h.1.1], h.2⟩

/-- One unfolding step of the fueled tag-sequence reader. -/
theorem parseTagSeqF_succ (f : Nat) (cs : List Char) :
    parseTagSeqF (f + 1) cs
      = match skipWs cs with
        | ']' :: rest => if skipWs rest = [] then some [] else none
        | '#' :: rest =>
          match identSpan rest with
          | ([], _) => none
          | (c :: ident, rest2) =>
            match parseTagSeqF f rest2 with
            | some tags => some (('#' :: c :: ident) :: tags)
            | none => none
        | _ => none :=
  rfl

/-- The tag-sequence reader ignores one leading whitespace character. -/
theorem parseTagSeqF_cons_ws (f : Nat) (c : Char) (z : List Char) (h : isWs c = true) :
    parseTagSeqF (f + 1) (c :: z) = parseTagSeqF (f + 1) z := by
  rw [parseTagSeqF_succ, parseTagSeqF_succ]
  have : skipWs (c :: z) = skipWs z := by simp [skipWs, h]
  rw [this]

/-- Reading back a space-separated list of valid tags closed by `]` yields
exactly that list, for any fuel above its length. -/
theorem parseTagSeqF_sepSpace :
    ∀ (L : List (List Char)) (f : Nat), (∀ t ∈ L, validTag t = true) →
      L.length < f → parseTagSeqF f (sepSpace L ++ [']']) = some L := by
  intro L
  induction L with
  | nil =>
    intro f _ hf
    cases f with
    | zero => exact absurd hf (by omega)
    | succ f =>
      have h1 : isWs ']' = false := by decide
      rw [parseTagSeqF_succ]
      simp [sepSpace, skipWs, h1]
  | cons t ts ih =>
    intro f hval hf
    cases f with
    | zero => exact absurd hf (by omega)
    | succ f =>
      obtain ⟨u, us, rfl, hall⟩ := validTag_shape t (hval t (by simp))
      have hsharp : isWs '#' = false := by decide
      cases ts with
      | nil =>
        have hin : parseTagSeqF f [']'] = some [] := by
          have hrec := ih f (by simp) (by simp only [List.length_cons] at hf ⊢; omega)
          simpa [sepSpace] using hrec
        have hid : identSpan (u :: (us ++ [']'])) = (u :: us, [']']) := by
          have hraw := identSpan_append (u :: us) ']' [] hall (by decide)
          simpa using hraw
        have harg : skipWs (sepSpace [('#' :: u :: us)] ++ [']'])
            = '#' :: ((u :: us) ++ [']']) := by
          simp only [sepSpace, List.cons_append]
          exact skipWs_cons_of_neg _ hsharp _
        rw [parseTagSeqF_succ, harg]
        simp [hid, hin]
      | cons t2 ts2 =>
        cases f with
        | zero => exact absurd hf (by simp only [List.length_cons]; omega)
        | succ f2 =>
          have hid : identSpan (u :: (us ++ ' ' :: (sepSpace (t2 :: ts2) ++ [']'])))
              = (u :: us, ' ' :: (sepSpace (t2 :: ts2) ++ [']'])) := by
            have hraw := identSpan_append (u :: us) ' ' (sepSpace (t2 :: ts2) ++ [']'])
              hall (by decide)
            simpa using hraw
          have hws : parseTagSeqF (f2 + 1) (' ' :: (sepSpace (t2 :: ts2) ++ [']']))
              = parseTagSeqF (f2 + 1) (sepSpace (t2 :: ts2) ++ [']']) :=
            parseTagSeqF_cons_ws _ _ _ (by decide)
          have hin : parseTagSeqF (f2 + 1) (sepSpace (t2 :: ts2) ++ [']'])
              = some (t2 :: ts2) :=
            ih (f2 + 1) (fun x hx => hval x (by simp [hx]))
              (by simp only [List.length_cons] at hf ⊢; omega)
          have harg : skipWs (sepSpace (('#' :: u :: us) :: t2 :: ts2) ++ [']'])
              = '#' :: ((u :: us) ++ ' ' :: (sepSpace (t2 :: ts2) ++ [']'])) := by
            simp only [sepSpace, List.cons_append, List.append_assoc]
            exact skipWs_cons_of_neg _ hsharp _
          rw [parseTagSeqF_succ, harg]
          simp [hid, hws, hin]

/-- Valid tags are nonempty, so the joined tag text is at least as long as the
tag list itself. -/
theorem sepSpace_length_ge (L : List (List Char)) (h : ∀ t ∈ L, validTag t = true) :
    L.length ≤ (sepSpace L).length := by
  induction L with
  | nil => simp [sepSpace]
  | cons t ts ih =>
    obtain ⟨u, us, rfl, -⟩ := validTag_shape t (h t (by simp))
    cases ts with
    | nil => simp [sepSpace]
    | cons t2 ts2 =>
      have hih := ih (fun x hx => h x (by simp [hx]))
      simp only [sepSpace, List.length_cons, List.length_append] at hih ⊢
      omega

/-- Formatted taglines carry no leading or trailing whitespace, so trimming
leaves them unchanged. -/
theorem trimChars_formatTagline (L : List (List Char)) :
    trimChars (formatTagline L) = formatTagline L := by
  have h1 : skipWs (formatTagline L) = formatTagline L :=
    skipWs_cons_of_neg 't' (by decide) _
  have h2 : (formatTagline L).reverse
      = ']' :: ((sepSpace L).reverse ++ ['[', ' ', ':', 's', 'g', 'a', 't']) := by
    simp [formatTagline]
  unfold trimChars
  rw [h1, h2, skipWs_cons_of_neg ']' (by decide) _, ← h2, List.reverse_reverse]

/-- C5: tagline round-trip — for every list of valid tag tokens (`#` followed
by letters, digits, hyphens), formatting it as the line `tags: [#t1 #t2 ...]`
and running tag extraction on that line returns exactly the same list, in the
same order, with no deduplication and no alteration of the tokens beyond the
trimming of the line. -/
theorem tagline_roundtrip (L : List (List Char)) (h : ∀ t ∈ L, validTag t = true) :
    tagsFromLine (formatTagline L) = some L := by
  unfold tagsFromLine
  rw [trimChars_formatTagline L]
  show parseTagSeq (sepSpace L ++ [']']) = some L
  have hlen := sepSpace_length_ge L h
  unfold parseTagSeq
  exact parseTagSeqF_sepSpace L _ h (by simp only [List.length_append]; omega)

/-- C5 witness: the round-trip at the concrete tag list of the repository's
own test case, `["#1", "#2", "#3"]` (src/parsers.rs, `test_tagline_parser`). -/
theorem tagline_roundtrip_witness :
    tagsFromLine (formatTagline [['#', '1'], ['#', '2'], ['#', '3']])
      = some [['#', '1'], ['#', '2'], ['#', '3']] :=
  tagline_roundtrip [['#', '1'], ['#', '2'], ['#', '3']] (by decide)

/-- A per-file I/O failure (unreadable file, permission denied), as surfaced
by `fs::File::open` / `read_line` in get_tags_from_file (src/search.rs). -/
structure IOErr where
  code : Nat
  deriving DecidableEq, Repr

/-- A directory-traversal failure yielded by the walkdir iterator
(src/search.rs, `WalkDir::new(directory).follow_links(true)`); `depth` models
`walkdir::Error::depth`, with depth 0 the root of the walk. -/
structure WalkErr where
  depth : Nat
  deriving DecidableEq, Repr

/-- The error of get_tags_from_file (src/search.rs): an I/O error propagated
by `?`, or a structural tagline parse error. -/
inductive TagError where
  | io : IOErr → TagError
  | parse : TagError
  deriving DecidableEq, Repr

/-- Structural decidable equality for Except values. -/
instance {e a : Type} [DecidableEq e] [DecidableEq a] : DecidableEq (Except e a) := fun x y =>
  match x, y with
  | Except.ok u, Except.ok v =>
    if h : u = v then isTrue (by rw [h]) else isFalse (by intro hc; cases hc; exact h rfl)
  | Except.error u, Except.error v =>
    if h : u = v then isTrue (by rw [h]) else isFalse (by intro hc; cases hc; exact h rfl)
  | Except.ok _, Except.error _ => isFalse (by intro hc; cases hc)
  | Except.error _, Except.ok _ => isFalse (by intro hc; cases hc)

/-- One non-error item yielded by the directory walk: a path, whether the
entry is a directory, and the result of reading the file's first line (the
I/O that get_tags_from_file performs before parsing). -/
structure FileEntry where
  path : List Char
  isDir : Bool
  firstLine : Except IOErr (List Char)
  deriving DecidableEq, Repr

/-- TaggedFile is a file that contains tags (src/search.rs,
`struct TaggedFile`). -/
structure TaggedFile where
  path : List Char
  tags : List (List Char)
  deriving DecidableEq, Repr

/-- get_tags_from_file returns a list of tags found in a file, and an error if
the file has no parsable tags (src/search.rs): an I/O failure in opening or
reading the first line propagates via `?`; otherwise the trimmed line goes
through the tagline grammar and the tag tokens are collected in order. -/
def get_tags_from_file (firstLine : Except IOErr (List Char)) :
    Except TagError (List (List Char)) :=
  match firstLine with
  | Except.error e => Except.error (TagError.io e)
  | Except.ok line =>
    match tagsFromLine line with
    | none => Except.error TagError.parse
    | some tags => Except.ok tags

/-- get_tags_from_files recursively retrieves the tags of all files in a given
directory (src/search.rs): walk entries in order; a walk error propagates via
`?` and aborts the build; directory entries are skipped; a file is pushed with
its tags when get_tags_from_file succeeds and silently skipped when it
fails. -/
def get_tags_from_files : List (Except WalkErr FileEntry) → Except WalkErr (List TaggedFile)
  | [] => Except.ok []
  | Except.error e :: _ => Except.error e
  | Except.ok entry :: rest =>
    if entry.isDir then get_tags_from_files rest
    else
      match get_tags_from_file entry.firstLine with
      | Except.ok tags =>
        match get_tags_from_files rest with
        | Except.ok files => Except.ok ({ path := entry.path, tags := tags } :: files)
        | Except.error e => Except.error e
      | Except.error _ => get_tags_from_files rest

/-- The record get_tags_from_files keeps for one walked entry: none for a
directory or for a file whose extraction fails, the TaggedFile otherwise. -/
def keptFile (e : FileEntry) : Option TaggedFile :=
  if e.isDir then none
  else
    match get_tags_from_file e.firstLine with
    | Except.ok tags => some { path := e.path, tags := tags }
    | Except.error _ => none

/-- On a walk that yields no traversal errors the index build always succeeds,
keeping exactly the non-directory entries whose extraction succeeds. -/
theorem get_tags_from_files_map_ok (entries : List FileEntry) :
    get_tags_from_files (entries.map Except.ok) = Except.ok (entries.filterMap keptFile) := by
  induction entries with
  | nil => rfl
  | cons e rest ih =>
    by_cases hdir : e.isDir = true
    · simp [get_tags_from_files, keptFile, hdir, ih]
    · cases hfe : get_tags_from_file e.firstLine with
      | ok tags => simp [get_tags_from_files, keptFile, hdir, hfe, ih]
      | error err => simp [get_tags_from_files, keptFile, hdir, hfe, ih]

/-- A readable tagged file used in the error-handling claims: first line
`tags: [#a]`. -/
def entryGood : FileEntry :=
  { path := "a.txt".data, isDir := false, firstLine := Except.ok "tags: [#a]".data }

/-- A readable file whose first line `tags:[##]` fails the tagline grammar. -/
def entryBadTagline : FileEntry :=
  { path := "b.txt".data, isDir := false, firstLine := Except.ok "tags:[##]".data }

/-- An unreadable file: reading its first line fails with an I/O error. -/
def entryUnreadable : FileEntry :=
  { path := "u.txt".data, isDir := false, firstLine := Except.error { code := 13 } }

/-- C8: per-file tagline structural errors are absorbed inside the index
builder — on any walk without traversal errors the build succeeds and keeps
exactly the entries whose extraction succeeds, so a file whose first line
fails the grammar is excluded while get_tags_from_files still returns ok;
concretely, the malformed line `tags:[##]` is a parse error, and indexing a
good file together with that file yields just the good file. -/
theorem tagline_errors_absorbed :
    (∀ entries : List FileEntry,
      get_tags_from_files (entries.map Except.ok) = Except.ok (entries.filterMap keptFile))
    ∧ get_tags_from_file entryBadTagline.firstLine = Except.error TagError.parse
    ∧ get_tags_from_files ([entryGood, entryBadTagline].map Except.ok)
        = Except.ok [{ path := "a.txt".data, tags := [['#', 'a']] }] :=
  ⟨get_tags_from_files_map_ok, by decide, by decide⟩

/-- The concrete walk for the C9 counterexample: one good file followed by a
traversal failure at depth 2, away from the root. -/
def walkWithDeepError : List (Except WalkErr FileEntry) :=
  [Except.ok entryGood, Except.error { depth := 2 }]

/-- C9 counterexample: a directory-traversal failure that is not at the root
(depth 2, while the root has depth 0) is still fatal — get_tags_from_files
propagates it and drops the already-indexed file — so it is false that only a
traversal failure at the root is fatal for the build. -/
theorem deep_walk_error_fatal :
    get_tags_from_files walkWithDeepError = Except.error { depth := 2 }
    ∧ ({ depth := 2 } : WalkErr).depth = 2 := by
  constructor
  · decide
  · rfl

/-- C9 (amended): filesystem and I/O errors on individual files are per-file
and non-fatal — a non-directory entry whose first-line read fails is skipped
and the build returns the index of the remaining files — while a traversal
error yielded by the walk at any position, root or deeper, is fatal. -/
theorem io_errors_per_file_walk_errors_fatal :
    (∀ (e : FileEntry) (rest : List FileEntry) (err : IOErr),
      e.isDir = false → e.firstLine = Except.error err →
      get_tags_from_files (Except.ok e :: rest.map Except.ok)
        = get_tags_from_files (rest.map Except.ok))
    ∧ (∀ (pre : List FileEntry) (w : WalkErr) (post : List (Except WalkErr FileEntry)),
      get_tags_from_files (pre.map Except.ok ++ Except.error w :: post)
        = Except.error w) := by
  constructor
  · intro e rest err hdir hline
    simp [get_tags_from_files, get_tags_from_file, hdir, hline]
  · intro pre w post
    induction pre with
    | nil => simp [get_tags_from_files]
    | cons e p ih =>
      by_cases hdir : e.isDir = true
      · simp [get_tags_from_files, hdir, ih]
      · cases hfe : get_tags_from_file e.firstLine with
        | ok tags => simp [get_tags_from_files, hdir, hfe, ih]
        | error err2 => simp [get_tags_from_files, hdir, hfe, ih]

/-- C9 witness: the amended statement at concrete inputs — the unreadable
file is skipped while the remaining build proceeds, and a traversal error in
the root position of the walk is fatal. -/
theorem io_errors_per_file_witness :
    get_tags_from_files (Except.ok entryUnreadable :: [entryGood].map Except.ok)
      = get_tags_from_files ([entryGood].map Except.ok)
    ∧ get_tags_from_files (([] : List FileEntry).map Except.ok
        ++ Except.error ({ depth := 0 } : WalkErr) :: [])
      = Except.error { depth := 0 } :=
  ⟨io_errors_per_file_walk_errors_fatal.1 entryUnreadable [entryGood] { code := 13 } rfl rfl,
    io_errors_per_file_walk_errors_fatal.2 [] { depth := 0 } []⟩
